import Mathlib

/-!
# Verification of the codxell session coordinator

A shallow embedding of the socket.io chat server found at the tail of
`src/app/App.tsx` (the `io.on('connection', ...)` block and its helpers):
the matchmaking queue, the room registry (`activeRooms`), the per-socket
message rate limiter (`checkMessageRateLimit`), the key-exchange relay
(`publicKeys`) and the username sanitizer (`sanitizeUsername`).

Modelling decisions, all taken from the source:

* Socket ids are modelled as `Nat`. A room id
  `room_${socket.id}_${partnerSocket.id}` is modelled as the ordered pair
  (joiner id, partner id); the string encoding is injective on such pairs.
* A JavaScript `Map` is modelled as an association list in insertion
  order: `Map.set` updates an existing key in place (keeping its
  position) and appends a fresh key at the end; `Map.delete` removes the
  entry; `Map.entries()` iterates in list order.  This matters because
  the skip/disconnect handlers locate the partner by scanning
  `activeRooms.entries()` in iteration order.
* Socket.io room membership is carried in the state (`members`):
  `socket.join(r)` adds a pair, `socket.leave(r)` removes it, a
  disconnecting socket leaves all rooms before its `disconnect` handler
  runs.  `socket.to(r).emit(...)` delivers to every current member of
  room `r` other than the sender; `io.to(sid).emit(...)` and
  `socket.emit(...)` deliver to the single socket `sid`.  Each handler
  resolves its emissions against the membership at the point the `emit`
  occurs, exactly as in the source.
* Loose JavaScript values (event payload fields, truthiness tests such
  as `id || Date.now()`) are modelled by `JSVal` with its truthiness
  function; numbers are integers (no floats appear in the relevant
  checks).
* `Date.now()` is passed into each time-sensitive event as an explicit
  `now : Nat` argument.
-/

/-- A loose JavaScript value, as far as the server-side checks care:
`undefined`, `null`, a boolean, an integer number, or a string. -/
inductive JSVal where
  | undef
  | jsnull
  | bool (b : Bool)
  | num (n : Int)
  | str (s : String)
  deriving DecidableEq, Repr

/-- JavaScript truthiness of a `JSVal` (`NaN` does not arise here;
numbers are integral). -/
def jsTruthy : JSVal → Bool
  | .undef => false
  | .jsnull => false
  | .bool b => b
  | .num n => n != 0
  | .str s => s != ""

/-! ## JavaScript `Map`, as an insertion-ordered association list -/

/-- `Map.get k`: the value at the first (and, with unique keys, only)
entry for `k`. -/
def mget [DecidableEq κ] (m : List (κ × α)) (k : κ) : Option α :=
  (m.find? (fun p => p.1 = k)).map (fun p => p.2)

/-- `Map.set k v`: update in place if `k` is present (JavaScript keeps
the original insertion position), otherwise append at the end. -/
def mset [DecidableEq κ] (m : List (κ × α)) (k : κ) (v : α) : List (κ × α) :=
  if (m.find? (fun p => p.1 = k)).isSome then
    m.map (fun p => if p.1 = k then (k, v) else p)
  else
    m ++ [(k, v)]

/-- `Map.delete k`: drop every entry keyed `k` (at most one arises). -/
def mdel [DecidableEq κ] (m : List (κ × α)) (k : κ) : List (κ × α) :=
  m.filter (fun p => p.1 ≠ k)

/-- `Map.has k`. -/
def mhas [DecidableEq κ] (m : List (κ × α)) (k : κ) : Bool :=
  (m.find? (fun p => p.1 = k)).isSome

/-! ## `sanitizeUsername` (App.tsx lines 1169–1174)

```js
function sanitizeUsername(username) {
  if (!username || typeof username !== 'string') return 'Anonymous';
  const sanitized = validator.escape(username.trim());
  return sanitized.substring(0, 50) || 'Anonymous';
}
```
-/

/-- Whitespace for `String.prototype.trim` (the ASCII cases; the exotic
Unicode space classes JavaScript also trims never affect the properties
proved here and no claim exercises them). -/
def jsWhitespace (c : Char) : Bool :=
  c = ' ' || c = Char.ofNat 9 || c = Char.ofNat 10 || c = Char.ofNat 13 ||
  c = Char.ofNat 11 || c = Char.ofNat 12

/-- `String.prototype.trim`, on the character list. -/
def jsTrim (s : List Char) : List Char :=
  ((s.dropWhile jsWhitespace).reverse.dropWhile jsWhitespace).reverse

/-- One character under `validator.escape`: `& < > " ' / \` and the
backquote (code 96) become HTML entities, everything else is kept. -/
def escapeChar (c : Char) : List Char :=
  if c = '&' then "&amp;".data
  else if c = '<' then "&lt;".data
  else if c = '>' then "&gt;".data
  else if c = '"' then "&quot;".data
  else if c = Char.ofNat 39 then "&#x27;".data
  else if c = '/' then "&#x2F;".data
  else if c = Char.ofNat 92 then "&#x5C;".data
  else if c = Char.ofNat 96 then "&#96;".data
  else [c]

/-- `validator.escape` over a whole string. -/
def validatorEscape (s : List Char) : List Char :=
  s.flatMap escapeChar

/-- `sanitizeUsername`: default for non-strings and falsy values, then
trim, escape, truncate to 50, and default again if that left nothing. -/
def sanitizeUsername (username : JSVal) : String :=
  match username with
  | .str s =>
    if s = "" then "Anonymous"
    else
      let sanitized := validatorEscape (jsTrim s.data)
      let truncated := sanitized.take 50
      if truncated = [] then "Anonymous" else String.mk truncated
  | _ => "Anonymous"

/-! ## Message rate limiter (App.tsx lines 1148–1166) -/

/-- `MESSAGE_RATE_LIMIT = 10` messages per window. -/
def MESSAGE_RATE_LIMIT : Nat := 10

/-- `RATE_WINDOW = 1000` ms. -/
def RATE_WINDOW : Nat := 1000

/-- One entry of `messageCounts`: `{ count, resetTime }`. -/
structure RateRecord where
  count : Nat
  resetTime : Nat
  deriving DecidableEq, Repr

/-- `checkMessageRateLimit(socketId)` at time `now`, returning the
verdict and the updated `messageCounts` table.

```js
const record = messageCounts.get(socketId);
if (!record || now > record.resetTime) {
  messageCounts.set(socketId, { count: 1, resetTime: now + RATE_WINDOW });
  return true;
}
if (record.count >= MESSAGE_RATE_LIMIT) { return false; }
record.count++;
return true;
```
-/
def checkMessageRateLimit (counts : List (Nat × RateRecord)) (sid : Nat)
    (now : Nat) : Bool × List (Nat × RateRecord) :=
  match mget counts sid with
  | none => (true, mset counts sid ⟨1, now + RATE_WINDOW⟩)
  | some record =>
    if now > record.resetTime then
      (true, mset counts sid ⟨1, now + RATE_WINDOW⟩)
    else if record.count ≥ MESSAGE_RATE_LIMIT then
      (false, counts)
    else
      (true, mset counts sid ⟨record.count + 1, record.resetTime⟩)

/-! ## Server state and events -/

/-- A room id `room_${joiner}_${partner}`, as the pair of the two
socket ids with the joiner first. -/
abbrev RoomId := Nat × Nat

/-- `socket.data` as set by the `join_queue` handler. -/
structure UserData where
  username : String
  profilePic : JSVal
  deriving DecidableEq, Repr

/-- The whole mutable server state: the four coordinator collections,
socket.io room membership, and the per-socket `socket.data`. -/
structure ServerState where
  waitingQueue : List Nat
  activeRooms : List (Nat × RoomId)
  publicKeys : List (Nat × String)
  messageCounts : List (Nat × RateRecord)
  members : List (RoomId × Nat)
  sockData : List (Nat × UserData)
  deriving DecidableEq, Repr

/-- The state at server start: every collection empty. -/
def initState : ServerState := ⟨[], [], [], [], [], []⟩

/-- The `send_message` payload
`{roomId, text, sender, type, fileContent, fileType, id, replyTo, encrypted}`.
`ty` is the `type` field (a Lean keyword). -/
structure MsgPayload where
  roomId : RoomId
  text : JSVal
  sender : JSVal
  ty : JSVal
  fileContent : JSVal
  fileType : JSVal
  id : JSVal
  replyTo : JSVal
  encrypted : JSVal
  deriving DecidableEq, Repr

/-- An outbound event payload. `receive_message.ty` is the wire `type`
field. -/
inductive OutMsg where
  | chat_start (roomId : RoomId) (partnerName : String) (partnerProfilePic : JSVal)
  | partner_public_key (publicKey : String)
  | receive_message (text : JSVal) (sender : String) (id : JSVal) (ty : JSVal)
      (fileContent fileType replyTo encrypted : JSVal)
  | typing
  | stop_typing
  | message_edited (id text : JSVal)
  | message_deleted (id : JSVal)
  | partner_disconnected
  | rate_limit_exceeded (message : String)
  deriving DecidableEq, Repr

/-- One outbound emission, with its recipients resolved against the room
membership at the instant the `emit` ran: `socket.emit` / `io.to(sid)`
give a singleton, `socket.to(roomId)` gives the members of that room
other than the sender. -/
structure Emission where
  recipients : List Nat
  msg : OutMsg
  deriving DecidableEq, Repr

/-- Recipients of `socket.to(roomId).emit(...)`: every current member of
the socket.io room except the sender. -/
def roomRecipients (members : List (RoomId × Nat)) (r : RoomId) (sender : Nat) :
    List Nat :=
  (members.filter (fun p => p.1 = r ∧ p.2 ≠ sender)).map (fun p => p.2)

/-- An inbound socket event, tagged with the emitting socket's id and,
where the handler reads the clock, with `Date.now()`. -/
inductive InEvent where
  | join_queue (sid : Nat) (username profilePic : JSVal)
  | exchange_keys (sid : Nat) (publicKey : JSVal)
  | send_message (sid : Nat) (now : Nat) (payload : MsgPayload)
  | typing (sid : Nat) (roomId : RoomId)
  | stop_typing (sid : Nat) (roomId : RoomId)
  | edit_message (sid : Nat) (roomId : RoomId) (id text : JSVal)
  | delete_message (sid : Nat) (roomId : RoomId) (id : JSVal)
  | skip (sid : Nat)
  | disconnect (sid : Nat)
  deriving DecidableEq, Repr

/-- `socket.data` of `s`, as the pairing handler reads it.  A socket in
the waiting queue always has data (it is set unconditionally at the top
of its own `join_queue`); the default is never reached from a reachable
state. -/
def getDataD (st : ServerState) (s : Nat) : UserData :=
  (mget st.sockData s).getD ⟨"", .undef⟩

/-- The `join_queue` handler (App.tsx lines 1179–1223).  Note the order
taken from the source: `socket.data` is assigned **before** the
already-paired and already-queued guards. -/
def handleJoinQueue (st : ServerState) (sid : Nat) (username profilePic : JSVal) :
    ServerState × List Emission :=
  let st := { st with
    sockData := mset st.sockData sid ⟨sanitizeUsername username, profilePic⟩ }
  if mhas st.activeRooms sid then (st, [])
  else if st.waitingQueue.contains sid then (st, [])
  else
    match st.waitingQueue with
    | partner :: rest =>
      let roomId : RoomId := (sid, partner)
      let st := { st with
        waitingQueue := rest,
        members := st.members ++ [(roomId, sid), (roomId, partner)],
        activeRooms := mset (mset st.activeRooms sid roomId) partner roomId }
      (st,
        [ ⟨[sid], .chat_start roomId (getDataD st partner).username
            (getDataD st partner).profilePic⟩,
          ⟨[partner], .chat_start roomId (getDataD st sid).username
            (getDataD st sid).profilePic⟩ ])
    | [] =>
      ({ st with waitingQueue := st.waitingQueue ++ [sid] }, [])

/-- The `exchange_keys` handler (App.tsx lines 1226–1237): store the key
when it is a truthy string, and forward it into the active room, if
any. -/
def handleExchangeKeys (st : ServerState) (sid : Nat) (publicKey : JSVal) :
    ServerState × List Emission :=
  match publicKey with
  | .str s =>
    if s ≠ "" then
      let st := { st with publicKeys := mset st.publicKeys sid s }
      match mget st.activeRooms sid with
      | some roomId =>
        (st, [⟨roomRecipients st.members roomId sid, .partner_public_key s⟩])
      | none => (st, [])
    else (st, [])
  | _ => (st, [])

/-- The `send_message` handler (App.tsx lines 1239–1257): rate-limit,
then broadcast `receive_message` to the caller-supplied room.  There is
no pairing check in the source. -/
def handleSendMessage (st : ServerState) (sid : Nat) (now : Nat)
    (payload : MsgPayload) : ServerState × List Emission :=
  match checkMessageRateLimit st.messageCounts sid now with
  | (false, counts) =>
    ({ st with messageCounts := counts },
      [⟨[sid], .rate_limit_exceeded "Sending messages too fast. Please slow down."⟩])
  | (true, counts) =>
    ({ st with messageCounts := counts },
      [⟨roomRecipients st.members payload.roomId sid,
        .receive_message payload.text "other"
          (if jsTruthy payload.id then payload.id else .num now)
          (if jsTruthy payload.ty then payload.ty else .str "text")
          payload.fileContent payload.fileType payload.replyTo payload.encrypted⟩])

/-- `activeRooms.entries().find(([id, room]) => room === roomId && id !== socket.id)`,
the partner scan shared by the `skip` and `disconnect` handlers. -/
def findPartnerId (rooms : List (Nat × RoomId)) (roomId : RoomId) (sid : Nat) :
    Option Nat :=
  (rooms.find? (fun p => p.2 = roomId ∧ p.1 ≠ sid)).map (fun p => p.1)

/-- The `skip` handler (App.tsx lines 1279–1303): notify the partner,
leave the socket.io room, delete both `activeRooms` mappings, and drop
out of the waiting queue. -/
def handleSkip (st : ServerState) (sid : Nat) : ServerState × List Emission :=
  match mget st.activeRooms sid with
  | some roomId =>
    let partnerId := findPartnerId st.activeRooms roomId sid
    let ems := [⟨roomRecipients st.members roomId sid, .partner_disconnected⟩]
    let st := { st with
      members := st.members.filter (fun p => ¬(p.1 = roomId ∧ p.2 = sid)),
      activeRooms := mdel st.activeRooms sid }
    let st :=
      match partnerId with
      | some p => { st with activeRooms := mdel st.activeRooms p }
      | none => st
    ({ st with waitingQueue := st.waitingQueue.filter (fun s => s ≠ sid) }, ems)
  | none =>
    ({ st with waitingQueue := st.waitingQueue.filter (fun s => s ≠ sid) }, [])

/-- The `disconnect` handler (App.tsx lines 1305–1334).  Socket.io has
the socket leave every room before this handler runs; then the handler
drops the queue entry, the key and rate records, notifies the partner
and clears both room mappings — including, when a partner is found,
**the partner's stored public key** (line 1330). -/
def handleDisconnect (st : ServerState) (sid : Nat) : ServerState × List Emission :=
  let st := { st with
    members := st.members.filter (fun p => p.2 ≠ sid),
    sockData := mdel st.sockData sid }
  let st := { st with
    waitingQueue := st.waitingQueue.filter (fun s => s ≠ sid),
    publicKeys := mdel st.publicKeys sid,
    messageCounts := mdel st.messageCounts sid }
  match mget st.activeRooms sid with
  | some roomId =>
    let partnerId := findPartnerId st.activeRooms roomId sid
    let ems := [⟨roomRecipients st.members roomId sid, .partner_disconnected⟩]
    let st := { st with activeRooms := mdel st.activeRooms sid }
    let st :=
      match partnerId with
      | some p => { st with
          activeRooms := mdel st.activeRooms p,
          publicKeys := mdel st.publicKeys p }
      | none => st
    (st, ems)
  | none => (st, [])

/-- The session coordinator: dispatch one inbound event, returning the new
state and the outbound emissions in order. -/
def step (st : ServerState) (e : InEvent) : ServerState × List Emission :=
  match e with
  | .join_queue sid username profilePic => handleJoinQueue st sid username profilePic
  | .exchange_keys sid publicKey => handleExchangeKeys st sid publicKey
  | .send_message sid now payload => handleSendMessage st sid now payload
  | .typing sid roomId => (st, [⟨roomRecipients st.members roomId sid, .typing⟩])
  | .stop_typing sid roomId =>
      (st, [⟨roomRecipients st.members roomId sid, .stop_typing⟩])
  | .edit_message sid roomId id text =>
      (st, [⟨roomRecipients st.members roomId sid, .message_edited id text⟩])
  | .delete_message sid roomId id =>
      (st, [⟨roomRecipients st.members roomId sid, .message_deleted id⟩])
  | .skip sid => handleSkip st sid
  | .disconnect sid => handleDisconnect st sid

/-- A state the server can be in: reachable from `initState` by some
sequence of inbound events. -/
inductive Reachable : ServerState → Prop where
  | init : Reachable initState
  | step {st : ServerState} (e : InEvent) (h : Reachable st) :
      Reachable (step st e).1

/-- The other member of room `r`, seen from member `s`. -/
def otherMember (r : RoomId) (s : Nat) : Nat :=
  if s = r.1 then r.2 else r.1

/-- The spec's `partnerOf`: resolve `s`'s room, then the other member,
by the same `entries()` scan the handlers use. -/
def partnerOf (st : ServerState) (s : Nat) : Option Nat :=
  match mget st.activeRooms s with
  | some r => findPartnerId st.activeRooms r s
  | none => none

/-! ## Association-map lemmas -/

section MapLemmas

variable {κ α : Type} [DecidableEq κ]

theorem mget_eq_none_iff {m : List (κ × α)} {k : κ} :
    mget m k = none ↔ ∀ p ∈ m, p.1 ≠ k := by
  simp [mget, List.find?_eq_none]

theorem find?_map_update (m : List (κ × α)) (k : κ) (v : α) :
    (m.map (fun p => if p.1 = k then (k, v) else p)).find? (fun p => p.1 = k) =
      (m.find? (fun p => p.1 = k)).map (fun p => if p.1 = k then (k, v) else p) := by
  induction m with
  | nil => rfl
  | cons a as ih =>
    by_cases hak : a.1 = k
    · rw [List.map_cons, if_pos hak,
        List.find?_cons_of_pos _ (by simp), List.find?_cons_of_pos _ (by simp [hak]),
        Option.map_some', if_pos hak]
    · rw [List.map_cons, if_neg hak,
        List.find?_cons_of_neg _ (by simp [hak]), List.find?_cons_of_neg _ (by simp [hak]),
        ih]

theorem mget_map_update_ne {m : List (κ × α)} {k k2 : κ} {v : α} (h : k2 ≠ k) :
    mget (m.map (fun p => if p.1 = k then (k, v) else p)) k2 = mget m k2 := by
  induction m with
  | nil => rfl
  | cons a as ih =>
    by_cases hak : a.1 = k
    · rw [List.map_cons, if_pos hak, mget,
        List.find?_cons_of_neg _ (by simp [Ne.symm h]), mget,
        List.find?_cons_of_neg _ (by rw [hak]; simp [Ne.symm h])]
      exact ih
    · by_cases hak2 : a.1 = k2
      · rw [List.map_cons, if_neg hak, mget, List.find?_cons_of_pos _ (by simp [hak2]),
          mget, List.find?_cons_of_pos _ (by simp [hak2])]
      · rw [List.map_cons, if_neg hak, mget, List.find?_cons_of_neg _ (by simp [hak2]),
          mget, List.find?_cons_of_neg _ (by simp [hak2])]
        exact ih

theorem mget_append_none {m l : List (κ × α)} {k : κ} (h : mget m k = none) :
    mget (m ++ l) k = mget l k := by
  have hf : m.find? (fun p => p.1 = k) = none := by
    cases hx : m.find? (fun p => p.1 = k) with
    | none => rfl
    | some q => rw [mget, hx] at h; exact absurd h (by simp)
  rw [mget, List.find?_append, hf, Option.none_or, mget]

theorem mget_mset (m : List (κ × α)) (k k2 : κ) (v : α) :
    mget (mset m k v) k2 = if k2 = k then some v else mget m k2 := by
  unfold mset
  by_cases hs : (m.find? (fun p => p.1 = k)).isSome
  · rw [if_pos hs]
    by_cases h2 : k2 = k
    · subst h2
      obtain ⟨q, hq⟩ := Option.isSome_iff_exists.mp hs
      rw [if_pos rfl, mget, find?_map_update, hq, Option.map_some',
        if_pos (by simpa using List.find?_some hq)]
      rfl
    · rw [if_neg h2, mget_map_update_ne h2]
  · rw [if_neg hs]
    have hn : mget m k = none := by
      rw [Option.not_isSome_iff_eq_none] at hs
      rw [mget, hs]; rfl
    by_cases h2 : k2 = k
    · subst h2
      rw [if_pos rfl, mget_append_none hn, mget, List.find?_cons_of_pos _ (by simp)]
      rfl
    · rw [if_neg h2, mget, List.find?_append, mget]
      cases hx : m.find? (fun p => p.1 = k2) with
      | none =>
        rw [Option.none_or, List.find?_cons_of_neg _ (by simp [Ne.symm h2])]
        rfl
      | some q => rw [Option.or_some]

theorem mget_mdel (m : List (κ × α)) (k k2 : κ) :
    mget (mdel m k) k2 = if k2 = k then none else mget m k2 := by
  induction m with
  | nil => by_cases h2 : k2 = k <;> simp [mdel, mget, h2]
  | cons a as ih =>
    by_cases hak : a.1 = k
    · rw [mdel, List.filter_cons_of_neg (by simp [hak])]
      by_cases h2 : k2 = k
      · rw [if_pos h2]; rw [mdel] at ih; rw [ih, if_pos h2]
      · rw [if_neg h2]
        rw [mdel] at ih
        rw [ih, if_neg h2, mget, mget,
          List.find?_cons_of_neg _ (by rw [hak]; simp [Ne.symm h2])]
    · rw [mdel, List.filter_cons_of_pos (by simp [hak])]
      by_cases hak2 : a.1 = k2
      · rw [mget, List.find?_cons_of_pos _ (by simp [hak2]), mget,
          List.find?_cons_of_pos _ (by simp [hak2])]
        by_cases h2 : k2 = k
        · exact absurd (h2 ▸ hak2) hak
        · rw [if_neg h2]
      · have l1 : mget (a :: List.filter (fun p => decide (p.1 ≠ k)) as) k2 =
            mget (List.filter (fun p => decide (p.1 ≠ k)) as) k2 := by
          rw [mget, List.find?_cons_of_neg _ (by simp [hak2]), mget]
        have l2 : mget (a :: as) k2 = mget as k2 := by
          rw [mget, List.find?_cons_of_neg _ (by simp [hak2]), mget]
        rw [mdel] at ih
        rw [l1, l2, ih]

theorem mem_of_mget_eq_some {m : List (κ × α)} {k : κ} {v : α}
    (h : mget m k = some v) : (k, v) ∈ m := by
  rw [mget] at h
  cases hx : m.find? (fun p => p.1 = k) with
  | none => rw [hx] at h; exact absurd h (by simp)
  | some q =>
    rw [hx] at h
    have hq : q.1 = k := by simpa using List.find?_some hx
    have hv : q.2 = v := by simpa using h
    have : q = (k, v) := Prod.ext hq hv
    exact this ▸ List.mem_of_find?_eq_some hx

theorem mget_eq_some_of_mem {m : List (κ × α)} {k : κ} {v : α}
    (hnd : (m.map Prod.fst).Nodup) (h : (k, v) ∈ m) : mget m k = some v := by
  induction m with
  | nil => cases h
  | cons a as ih =>
    rw [List.map_cons, List.nodup_cons] at hnd
    rcases List.mem_cons.mp h with h | h
    · rw [← h, mget, List.find?_cons_of_pos _ (by simp)]
      rfl
    · have hak : a.1 ≠ k := by
        intro he
        exact hnd.1 (he ▸ List.mem_map_of_mem Prod.fst h)
      rw [mget, List.find?_cons_of_neg _ (by simp [hak]), ← mget]
      exact ih hnd.2 h

theorem mget_value_unique {m : List (κ × α)} {k : κ} {v1 v2 : α}
    (hnd : (m.map Prod.fst).Nodup) (h1 : (k, v1) ∈ m) (h2 : (k, v2) ∈ m) :
    v1 = v2 := by
  have e1 := mget_eq_some_of_mem hnd h1
  have e2 := mget_eq_some_of_mem hnd h2
  rw [e1] at e2
  exact Option.some.inj e2

theorem keys_mset_nodup {m : List (κ × α)} {k : κ} {v : α}
    (hnd : (m.map Prod.fst).Nodup) : ((mset m k v).map Prod.fst).Nodup := by
  unfold mset
  by_cases hs : (m.find? (fun p => p.1 = k)).isSome
  · rw [if_pos hs]
    have : (m.map (fun p => if p.1 = k then (k, v) else p)).map Prod.fst =
        m.map Prod.fst := by
      rw [List.map_map]
      refine List.map_congr_left ?_
      intro p _
      by_cases hp : p.1 = k
      · simp [hp]
      · simp [hp]
    rw [this]
    exact hnd
  · rw [if_neg hs]
    rw [List.map_append]
    refine List.Nodup.append hnd (by simp) ?_
    intro x hx hy
    simp only [List.map_cons, List.map_nil, List.mem_singleton] at hy
    subst hy
    rw [Option.not_isSome_iff_eq_none, List.find?_eq_none] at hs
    obtain ⟨p, hp, hpk⟩ := List.mem_map.mp hx
    exact hs p hp (by simp [hpk])

theorem keys_mdel_nodup {m : List (κ × α)} {k : κ}
    (hnd : (m.map Prod.fst).Nodup) : ((mdel m k).map Prod.fst).Nodup :=
  hnd.sublist (List.Sublist.map Prod.fst (List.filter_sublist m))

theorem mem_mdel {m : List (κ × α)} {k : κ} {p : κ × α} :
    p ∈ mdel m k ↔ p ∈ m ∧ p.1 ≠ k := by
  rw [mdel, List.mem_filter]
  simp

theorem mget_of_sub_none {m m2 : List (κ × α)} {k : κ}
    (hsub : ∀ p ∈ m2, p ∈ m) (h : mget m k = none) : mget m2 k = none := by
  rw [mget_eq_none_iff] at h ⊢
  exact fun p hp => h p (hsub p hp)

theorem mem_mset_of_ne {m : List (κ × α)} {k : κ} {v : α} {p : κ × α}
    (hp : p ∈ m) (hne : p.1 ≠ k) : p ∈ mset m k v := by
  unfold mset
  by_cases hs : (m.find? (fun p => p.1 = k)).isSome
  · rw [if_pos hs]
    have : p = (fun q => if q.1 = k then (k, v) else q) p := by simp [hne]
    rw [this]
    exact List.mem_map_of_mem _ hp
  · rw [if_neg hs]
    exact List.mem_append_left _ hp

theorem mhas_eq_isSome_mget (m : List (κ × α)) (k : κ) :
    mhas m k = (mget m k).isSome := by
  rw [mhas, mget]
  cases m.find? (fun p => p.1 = k) <;> rfl

end MapLemmas

/-! ## The coordinator invariant

Everything here is proved inductive over `step` and hence holds in each
reachable state: the registry has at most one entry per socket; every
registry entry's room lists its two distinct members, and both members
map back to that room; queued sockets are unpaired; the queue has no
duplicates; both members of an active room are members of its socket.io
room; the key table has at most one entry per socket. -/

structure SrvInv (st : ServerState) : Prop where
  arNodup : (st.activeRooms.map Prod.fst).Nodup
  rooms : ∀ p ∈ st.activeRooms,
    p.2.1 ≠ p.2.2 ∧ (p.1 = p.2.1 ∨ p.1 = p.2.2) ∧
    (p.2.1, p.2) ∈ st.activeRooms ∧ (p.2.2, p.2) ∈ st.activeRooms
  queueUnpaired : ∀ s ∈ st.waitingQueue, mget st.activeRooms s = none
  queueNodup : st.waitingQueue.Nodup
  memb : ∀ p ∈ st.activeRooms, (p.2, p.2.1) ∈ st.members ∧ (p.2, p.2.2) ∈ st.members
  pkNodup : (st.publicKeys.map Prod.fst).Nodup

theorem inv_init : SrvInv initState where
  arNodup := List.nodup_nil
  rooms := fun p hp => absurd hp (List.not_mem_nil p)
  queueUnpaired := fun s hs => absurd hs (List.not_mem_nil s)
  queueNodup := List.nodup_nil
  memb := fun p hp => absurd hp (List.not_mem_nil p)
  pkNodup := List.nodup_nil

/-- Under the invariant, the `entries()` scan of the skip/disconnect
handlers finds exactly the other member of the caller's room. -/
theorem findPartnerId_eq {st : ServerState} (inv : SrvInv st) {s : Nat} {r : RoomId}
    (h : mget st.activeRooms s = some r) :
    findPartnerId st.activeRooms r s = some (otherMember r s) := by
  have hmem := mem_of_mget_eq_some h
  obtain ⟨hne, hor, h1, h2⟩ := inv.rooms (s, r) hmem
  simp only at hne hor h1 h2
  have hto : (otherMember r s, r) ∈ st.activeRooms ∧ otherMember r s ≠ s := by
    rcases hor with hs1 | hs2
    · rw [otherMember, if_pos hs1]
      exact ⟨h2, fun he => hne (hs1 ▸ he.symm)⟩
    · by_cases hs1 : s = r.1
      · rw [otherMember, if_pos hs1]
        exact ⟨h2, fun he => hne (hs1 ▸ he.symm)⟩
      · rw [otherMember, if_neg hs1]
        exact ⟨h1, fun he => hs1 he.symm⟩
  have hsome : (st.activeRooms.find? (fun p => p.2 = r ∧ p.1 ≠ s)).isSome := by
    rw [List.find?_isSome]
    exact ⟨(otherMember r s, r), hto.1, by simp [hto.2]⟩
  obtain ⟨q, hq⟩ := Option.isSome_iff_exists.mp hsome
  have hqmem := List.mem_of_find?_eq_some hq
  have hqp := List.find?_some hq
  have hq2 : q.2 = r := by
    have := hqp
    simp only [Bool.and_eq_true, decide_eq_true_eq] at this
    exact this.1
  have hq1ne : q.1 ≠ s := by
    have := hqp
    simp only [Bool.and_eq_true, decide_eq_true_eq] at this
    exact this.2
  obtain ⟨-, hqor, -, -⟩ := inv.rooms q hqmem
  have hq1 : q.1 = otherMember r s := by
    rcases hor with hs1 | hs2
    · rw [otherMember, if_pos hs1]
      rcases hqor with hh | hh
      · exact absurd (hh.trans (hq2 ▸ hs1.symm : q.2.1 = s)) hq1ne
      · exact hh.trans (by rw [hq2])
    · by_cases hs1 : s = r.1
      · rw [otherMember, if_pos hs1]
        rcases hqor with hh | hh
        · exact absurd (hh.trans (hq2 ▸ hs1.symm : q.2.1 = s)) hq1ne
        · exact hh.trans (by rw [hq2])
      · rw [otherMember, if_neg hs1]
        rcases hqor with hh | hh
        · exact hh.trans (by rw [hq2])
        · exact absurd (hh.trans (hq2 ▸ hs2.symm : q.2.2 = s)) hq1ne
  rw [findPartnerId, hq, Option.map_some', hq1]

/-- When the key is absent, `Map.set` is an append at the end. -/
theorem mset_eq_append {κ α : Type} [DecidableEq κ] {m : List (κ × α)} {k : κ}
    {v : α} (h : mget m k = none) : mset m k v = m ++ [(k, v)] := by
  have hf : m.find? (fun p => p.1 = k) = none := by
    cases hx : m.find? (fun p => p.1 = k) with
    | none => rfl
    | some q => rw [mget, hx] at h; exact absurd h (by simp)
  rw [mset, if_neg (by simp [hf])]

theorem inv_handleExchangeKeys {st : ServerState} (inv : SrvInv st) (sid : Nat)
    (pk : JSVal) : SrvInv (handleExchangeKeys st sid pk).1 := by
  cases pk with
  | str s =>
    rw [handleExchangeKeys]
    dsimp only
    split
    · split
      · exact ⟨inv.arNodup, inv.rooms, inv.queueUnpaired, inv.queueNodup, inv.memb,
          keys_mset_nodup inv.pkNodup⟩
      · exact ⟨inv.arNodup, inv.rooms, inv.queueUnpaired, inv.queueNodup, inv.memb,
          keys_mset_nodup inv.pkNodup⟩
    · exact inv
  | undef => exact inv
  | jsnull => exact inv
  | bool b => exact inv
  | num n => exact inv

theorem inv_handleSendMessage {st : ServerState} (inv : SrvInv st) (sid now : Nat)
    (payload : MsgPayload) : SrvInv (handleSendMessage st sid now payload).1 := by
  rw [handleSendMessage]
  split
  · exact ⟨inv.arNodup, inv.rooms, inv.queueUnpaired, inv.queueNodup, inv.memb,
      inv.pkNodup⟩
  · exact ⟨inv.arNodup, inv.rooms, inv.queueUnpaired, inv.queueNodup, inv.memb,
      inv.pkNodup⟩

theorem inv_handleJoinQueue {st : ServerState} (inv : SrvInv st) (sid : Nat)
    (u pic : JSVal) : SrvInv (handleJoinQueue st sid u pic).1 := by
  rw [handleJoinQueue]
  dsimp only
  split
  · -- already paired: only `socket.data` changed
    exact ⟨inv.arNodup, inv.rooms, inv.queueUnpaired, inv.queueNodup, inv.memb,
      inv.pkNodup⟩
  next hpaired =>
  split
  · -- already queued: only `socket.data` changed
    exact ⟨inv.arNodup, inv.rooms, inv.queueUnpaired, inv.queueNodup, inv.memb,
      inv.pkNodup⟩
  next hqueued =>
  have hsid : mget st.activeRooms sid = none := by
    have h := hpaired
    rw [mhas_eq_isSome_mget] at h
    exact Option.not_isSome_iff_eq_none.mp h
  have hnq : sid ∉ st.waitingQueue := fun hm => hqueued (List.elem_eq_true_of_mem hm)
  split
  next partner rest heq =>
    have heq2 : st.waitingQueue = partner :: rest := heq
    have hpmem : partner ∈ st.waitingQueue := by
      rw [heq2]; exact List.mem_cons_self partner rest
    have hpart : mget st.activeRooms partner = none := inv.queueUnpaired partner hpmem
    have hsp : sid ≠ partner := fun he => hnq (he ▸ hpmem)
    have hqnd : (partner :: rest).Nodup := heq2 ▸ inv.queueNodup
    have hAR : mset (mset st.activeRooms sid (sid, partner)) partner (sid, partner) =
        st.activeRooms ++ [(sid, (sid, partner)), (partner, (sid, partner))] := by
      rw [mset_eq_append hsid, mset_eq_append (m := st.activeRooms ++ [(sid, (sid, partner))])
        (by
          rw [mget_append_none hpart, mget, List.find?_cons_of_neg _ (by simp [hsp])]
          rfl),
        List.append_assoc]
      rfl
    refine ⟨?_, ?_, ?_, ?_, ?_, inv.pkNodup⟩ <;> dsimp only
    · -- at most one room per socket
      rw [hAR, List.map_append]
      refine List.Nodup.append inv.arNodup
        (by simp [hsp]) ?_
      intro x hx hy
      obtain ⟨p, hp, rfl⟩ := List.mem_map.mp hx
      rcases (by simpa using hy : p.1 = sid ∨ p.1 = partner) with h | h
      · exact (mget_eq_none_iff.mp hsid p hp) h
      · exact (mget_eq_none_iff.mp hpart p hp) h
    · -- each entry's room lists its two distinct members, both mapped
      intro p hp
      rw [hAR] at hp
      rcases List.mem_append.mp hp with hpm | hpm
      · obtain ⟨hne, hor, hm1, hm2⟩ := inv.rooms p hpm
        refine ⟨hne, hor, ?_, ?_⟩ <;> rw [hAR]
        · exact List.mem_append_left _ hm1
        · exact List.mem_append_left _ hm2
      · rcases (by simpa using hpm :
            p = (sid, (sid, partner)) ∨ p = (partner, (sid, partner))) with rfl | rfl
        · refine ⟨hsp, Or.inl rfl, ?_, ?_⟩ <;> rw [hAR]
          · exact List.mem_append_right _ (by simp)
          · exact List.mem_append_right _ (by simp)
        · refine ⟨hsp, Or.inr rfl, ?_, ?_⟩ <;> rw [hAR]
          · exact List.mem_append_right _ (by simp)
          · exact List.mem_append_right _ (by simp)
    · -- queued sockets stay unpaired
      intro s hs
      have hs2 : s ∈ st.waitingQueue := by rw [heq2]; exact List.mem_cons_of_mem _ hs
      have hns : mget st.activeRooms s = none := inv.queueUnpaired s hs2
      have hssid : s ≠ sid := fun he => hnq (he ▸ hs2)
      have hspart : s ≠ partner := fun he =>
        (List.nodup_cons.mp hqnd).1 (he ▸ hs)
      show mget (mset (mset st.activeRooms sid (sid, partner)) partner
        (sid, partner)) s = none
      rw [mget_mset, if_neg hspart, mget_mset, if_neg hssid, hns]
    · exact (List.nodup_cons.mp hqnd).2
    · -- both members joined the socket.io room
      intro p hp
      rw [hAR] at hp
      rcases List.mem_append.mp hp with hpm | hpm
      · obtain ⟨hm1, hm2⟩ := inv.memb p hpm
        exact ⟨List.mem_append_left _ hm1, List.mem_append_left _ hm2⟩
      · rcases (by simpa using hpm :
            p = (sid, (sid, partner)) ∨ p = (partner, (sid, partner))) with rfl | rfl
        · exact ⟨List.mem_append_right _ (by simp), List.mem_append_right _ (by simp)⟩
        · exact ⟨List.mem_append_right _ (by simp), List.mem_append_right _ (by simp)⟩
  next heq =>
    have heq2 : st.waitingQueue = [] := heq
    refine ⟨inv.arNodup, inv.rooms, ?_, ?_, inv.memb, inv.pkNodup⟩
    · intro s hs
      rcases List.mem_append.mp hs with hs | hs
      · exact inv.queueUnpaired s hs
      · rw [List.mem_singleton.mp hs]
        exact hsid
    · rw [heq2]
      simp


/-- Entries surviving the two-sided deletion of room `r` are untouched
rooms: their keys and their rooms' two members avoid both departing
sockets, and their room differs from `r`. -/
theorem survivors_spec {st : ServerState} (inv : SrvInv st) {s : Nat} {r : RoomId}
    (h : mget st.activeRooms s = some r) :
    ∀ p ∈ mdel (mdel st.activeRooms s) (otherMember r s),
      p ∈ st.activeRooms ∧ p.2 ≠ r ∧
      p.2.1 ≠ s ∧ p.2.1 ≠ otherMember r s ∧
      p.2.2 ≠ s ∧ p.2.2 ≠ otherMember r s := by
  intro p hp
  obtain ⟨hp1, hpo⟩ := mem_mdel.mp hp
  obtain ⟨hpm, hps⟩ := mem_mdel.mp hp1
  obtain ⟨hsne, hsor, hs1, hs2⟩ := inv.rooms (s, r) (mem_of_mget_eq_some h)
  simp only at hsne hsor hs1 hs2
  have hset : ({r.1, r.2} : Set Nat) = {s, otherMember r s} := by
    rcases hsor with h1 | h2
    · rw [otherMember, if_pos h1, ← h1]
    · by_cases h1 : s = r.1
      · rw [otherMember, if_pos h1, ← h1]
      · rw [otherMember, if_neg h1, ← h2, Set.pair_comm]
  obtain ⟨hpne, hpor, hp1m, hp2m⟩ := inv.rooms p hpm
  have hpr : p.2 ≠ r := by
    intro he
    have : p.1 = r.1 ∨ p.1 = r.2 := by
      rcases hpor with hh | hh
      · exact Or.inl (hh.trans (by rw [he]))
      · exact Or.inr (hh.trans (by rw [he]))
    have hmem : p.1 ∈ ({r.1, r.2} : Set Nat) := by
      rcases this with hh | hh
      · exact Or.inl hh
      · exact Or.inr hh
    rw [hset] at hmem
    rcases hmem with hh | hh
    · exact hps hh
    · exact hpo hh
  have hother : (otherMember r s, r) ∈ st.activeRooms := by
    rcases hsor with h1 | h2
    · rw [otherMember, if_pos h1]; exact hs2
    · by_cases h1 : s = r.1
      · rw [otherMember, if_pos h1]; exact hs2
      · rw [otherMember, if_neg h1]; exact hs1
  have hskey : ∀ q2 : RoomId, (s, q2) ∈ st.activeRooms → q2 = r :=
    fun q2 hq2 => mget_value_unique inv.arNodup hq2 (mem_of_mget_eq_some h)
  have hokey : ∀ q2 : RoomId, (otherMember r s, q2) ∈ st.activeRooms → q2 = r :=
    fun q2 hq2 => mget_value_unique inv.arNodup hq2 hother
  refine ⟨hpm, hpr, ?_, ?_, ?_, ?_⟩
  · intro he
    exact hpr (hskey p.2 (he ▸ hp1m))
  · intro he
    exact hpr (hokey p.2 (he ▸ hp1m))
  · intro he
    exact hpr (hskey p.2 (he ▸ hp2m))
  · intro he
    exact hpr (hokey p.2 (he ▸ hp2m))

theorem inv_handleSkip {st : ServerState} (inv : SrvInv st) (sid : Nat) :
    SrvInv (handleSkip st sid).1 := by
  rw [handleSkip]
  split
  next r hr =>
    rw [findPartnerId_eq inv hr]
    dsimp only
    have hsurv := survivors_spec inv hr
    refine ⟨?_, ?_, ?_, ?_, ?_, inv.pkNodup⟩ <;> dsimp only
    · exact keys_mdel_nodup (keys_mdel_nodup inv.arNodup)
    · intro p hp
      obtain ⟨hpm, hpr, hps1, hpo1, hps2, hpo2⟩ := hsurv p hp
      obtain ⟨hpne, hpor, hp1m, hp2m⟩ := inv.rooms p hpm
      exact ⟨hpne, hpor,
        mem_mdel.mpr ⟨mem_mdel.mpr ⟨hp1m, hps1⟩, hpo1⟩,
        mem_mdel.mpr ⟨mem_mdel.mpr ⟨hp2m, hps2⟩, hpo2⟩⟩
    · intro s hs
      have hs2 := List.mem_of_mem_filter hs
      refine mget_of_sub_none ?_ (inv.queueUnpaired s hs2)
      intro p hp
      exact (mem_mdel.mp (mem_mdel.mp hp).1).1
    · exact inv.queueNodup.filter _
    · intro p hp
      obtain ⟨hpm, hpr, hps1, hpo1, hps2, hpo2⟩ := hsurv p hp
      obtain ⟨hm1, hm2⟩ := inv.memb p hpm
      constructor
      · refine List.mem_filter.mpr ⟨hm1, ?_⟩
        simp only [decide_eq_true_eq]
        intro hcontra
        exact hpr hcontra.1
      · refine List.mem_filter.mpr ⟨hm2, ?_⟩
        simp only [decide_eq_true_eq]
        intro hcontra
        exact hpr hcontra.1
  next hr =>
    exact ⟨inv.arNodup, inv.rooms,
      fun s hs => inv.queueUnpaired s (List.mem_of_mem_filter hs),
      inv.queueNodup.filter _, inv.memb, inv.pkNodup⟩

/-- An unpaired socket is not a member of any active room. -/
theorem room_member_ne_of_unpaired {st : ServerState} (inv : SrvInv st) {sid : Nat}
    (hr : mget st.activeRooms sid = none) :
    ∀ p ∈ st.activeRooms, p.2.1 ≠ sid ∧ p.2.2 ≠ sid := by
  intro p hp
  obtain ⟨-, -, h1, h2⟩ := inv.rooms p hp
  rw [mget_eq_none_iff] at hr
  constructor
  · intro he
    exact hr (sid, p.2) (he ▸ h1) rfl
  · intro he
    exact hr (sid, p.2) (he ▸ h2) rfl

theorem inv_handleDisconnect {st : ServerState} (inv : SrvInv st) (sid : Nat) :
    SrvInv (handleDisconnect st sid).1 := by
  rw [handleDisconnect]
  dsimp only
  split
  next r hr =>
    have hr2 : mget st.activeRooms sid = some r := hr
    rw [show findPartnerId st.activeRooms r sid = some (otherMember r sid) from
      findPartnerId_eq inv hr2]
    dsimp only
    have hsurv := survivors_spec inv hr2
    refine ⟨?_, ?_, ?_, ?_, ?_, ?_⟩ <;> dsimp only
    · exact keys_mdel_nodup (keys_mdel_nodup inv.arNodup)
    · intro p hp
      obtain ⟨hpm, hpr, hps1, hpo1, hps2, hpo2⟩ := hsurv p hp
      obtain ⟨hpne, hpor, hp1m, hp2m⟩ := inv.rooms p hpm
      exact ⟨hpne, hpor,
        mem_mdel.mpr ⟨mem_mdel.mpr ⟨hp1m, hps1⟩, hpo1⟩,
        mem_mdel.mpr ⟨mem_mdel.mpr ⟨hp2m, hps2⟩, hpo2⟩⟩
    · intro s hs
      have hs2 := List.mem_of_mem_filter hs
      refine mget_of_sub_none ?_ (inv.queueUnpaired s hs2)
      intro p hp
      exact (mem_mdel.mp (mem_mdel.mp hp).1).1
    · exact inv.queueNodup.filter _
    · intro p hp
      obtain ⟨hpm, hpr, hps1, hpo1, hps2, hpo2⟩ := hsurv p hp
      obtain ⟨hm1, hm2⟩ := inv.memb p hpm
      constructor
      · exact List.mem_filter.mpr ⟨hm1, by simp [hps1]⟩
      · exact List.mem_filter.mpr ⟨hm2, by simp [hps2]⟩
    · exact keys_mdel_nodup (keys_mdel_nodup inv.pkNodup)
  next hr =>
    refine ⟨inv.arNodup, inv.rooms,
      fun s hs => inv.queueUnpaired s (List.mem_of_mem_filter hs),
      inv.queueNodup.filter _, ?_, keys_mdel_nodup inv.pkNodup⟩
    intro p hp
    obtain ⟨hm1, hm2⟩ := inv.memb p hp
    obtain ⟨hn1, hn2⟩ := room_member_ne_of_unpaired inv hr p hp
    exact ⟨List.mem_filter.mpr ⟨hm1, by simp [hn1]⟩,
      List.mem_filter.mpr ⟨hm2, by simp [hn2]⟩⟩

/-- The invariant is inductive over the event step. -/
theorem inv_step {st : ServerState} (inv : SrvInv st) (e : InEvent) :
    SrvInv (step st e).1 := by
  cases e with
  | join_queue sid u pic => exact inv_handleJoinQueue inv sid u pic
  | exchange_keys sid pk => exact inv_handleExchangeKeys inv sid pk
  | send_message sid now payload => exact inv_handleSendMessage inv sid now payload
  | typing sid roomId => exact inv
  | stop_typing sid roomId => exact inv
  | edit_message sid roomId id text => exact inv
  | delete_message sid roomId id => exact inv
  | skip sid => exact inv_handleSkip inv sid
  | disconnect sid => exact inv_handleDisconnect inv sid

/-- Every reachable state satisfies the coordinator invariant. -/
theorem reachable_inv {st : ServerState} (h : Reachable st) : SrvInv st := by
  induction h with
  | init => exact inv_init
  | step e h ih => exact inv_step ih e

/-! ## Concrete scenario states

Socket 0 joins as "alice", socket 1 joins as "bob" (pairing them in room
`(1, 0)`), then socket 0 publishes the key "K". -/

def stA : ServerState := (step initState (.join_queue 0 (.str "alice") .undef)).1

def stAB : ServerState := (step stA (.join_queue 1 (.str "bob") .undef)).1

def stKey : ServerState := (step stAB (.exchange_keys 0 (.str "K"))).1

theorem reachable_stA : Reachable stA :=
  Reachable.step (.join_queue 0 (.str "alice") .undef) Reachable.init

theorem reachable_stAB : Reachable stAB :=
  Reachable.step (.join_queue 1 (.str "bob") .undef) reachable_stA

theorem reachable_stKey : Reachable stKey :=
  Reachable.step (.exchange_keys 0 (.str "K")) reachable_stAB

/-- A concrete `send_message` payload: text "hi", caller id 7, into room
`(1, 0)`. -/
def payloadHi : MsgPayload :=
  ⟨(1, 0), .str "hi", .undef, .undef, .undef, .undef, .num 7, .undef, .undef⟩

/-- A rejected admission leaves the rate table untouched. -/
theorem rate_reject_no_change {counts : List (Nat × RateRecord)} {sid now : Nat}
    (h : (checkMessageRateLimit counts sid now).1 = false) :
    (checkMessageRateLimit counts sid now).2 = counts := by
  rw [checkMessageRateLimit] at h ⊢
  cases hx : mget counts sid with
  | none =>
    rw [hx] at h
    dsimp only at h
    exact absurd h (by simp)
  | some r =>
    rw [hx] at h
    dsimp only at h ⊢
    by_cases h1 : now > r.resetTime
    · rw [if_pos h1] at h
      exact absurd h (by simp)
    · rw [if_neg h1] at h ⊢
      by_cases h2 : r.count ≥ MESSAGE_RATE_LIMIT
      · rw [if_pos h2]
      · rw [if_neg h2] at h
        exact absurd h (by simp)

/-- Run a sequence of admissions for socket `sid` at the given times,
starting from an empty table; collect the verdicts in order. -/
def rlRun (sid : Nat) (times : List Nat) : List Bool × List (Nat × RateRecord) :=
  times.foldl
    (fun acc t =>
      (acc.1 ++ [(checkMessageRateLimit acc.2 sid t).1],
        (checkMessageRateLimit acc.2 sid t).2))
    ([], [])

/-! ## Claim theorems -/

/-- C2: the message rate limiter, with limit L = 10 and window W = 1000 ms:
a first call, or a call strictly past the window end, resets the count to 1,
opens a window ending at `now + W`, and is allowed; below the limit the
count is incremented (window unchanged) and the call is allowed; at the
limit the call is rejected with neither count nor window changed.  Ten
calls in one window all succeed, the eleventh is rejected, and a call
after the window elapses succeeds. -/
theorem claim_C2 (counts : List (Nat × RateRecord)) (sid now : Nat) :
    (mget counts sid = none →
      checkMessageRateLimit counts sid now =
        (true, mset counts sid ⟨1, now + RATE_WINDOW⟩)) ∧
    (∀ r, mget counts sid = some r → now > r.resetTime →
      checkMessageRateLimit counts sid now =
        (true, mset counts sid ⟨1, now + RATE_WINDOW⟩)) ∧
    (∀ r, mget counts sid = some r → now ≤ r.resetTime →
      r.count < MESSAGE_RATE_LIMIT →
      checkMessageRateLimit counts sid now =
        (true, mset counts sid ⟨r.count + 1, r.resetTime⟩)) ∧
    (∀ r, mget counts sid = some r → now ≤ r.resetTime →
      MESSAGE_RATE_LIMIT ≤ r.count →
      checkMessageRateLimit counts sid now = (false, counts)) ∧
    (rlRun 7 (List.replicate MESSAGE_RATE_LIMIT 0 ++ [0, 1001])).1 =
      List.replicate MESSAGE_RATE_LIMIT true ++ [false, true] := by
  refine ⟨?_, ?_, ?_, ?_, by decide⟩
  · intro h
    rw [checkMessageRateLimit, h]
  · intro r hr hgt
    rw [checkMessageRateLimit, hr]
    dsimp only
    rw [if_pos hgt]
  · intro r hr hle hlt
    rw [checkMessageRateLimit, hr]
    dsimp only
    rw [if_neg (Nat.not_lt.mpr hle), if_neg (Nat.not_le.mpr hlt)]
  · intro r hr hle hge
    rw [checkMessageRateLimit, hr]
    dsimp only
    rw [if_neg (Nat.not_lt.mpr hle), if_pos hge]

/-- Witness for C2 at a saturated record: the call is rejected and the
table is unchanged. -/
theorem claim_C2_witness :
    checkMessageRateLimit [(3, ⟨10, 1000⟩)] 3 500 = (false, [(3, ⟨10, 1000⟩)]) :=
  (claim_C2 [(3, ⟨10, 1000⟩)] 3 500).2.2.2.1 ⟨10, 1000⟩ rfl (by decide) (by decide)

/-- C6: a `send_message` rejected by the rate limiter emits
`rate_limit_exceeded` to the sender and the sender only, drops the
message (no `receive_message` to anyone), sends nothing to the partner,
and leaves the whole state unchanged. -/
theorem claim_C6 (st : ServerState) (sid now : Nat) (payload : MsgPayload)
    (h : (checkMessageRateLimit st.messageCounts sid now).1 = false) :
    step st (.send_message sid now payload) =
      (st, [⟨[sid],
        .rate_limit_exceeded "Sending messages too fast. Please slow down."⟩]) := by
  have h2 := rate_reject_no_change h
  have heq : checkMessageRateLimit st.messageCounts sid now =
      (false, st.messageCounts) := Prod.ext h h2
  show handleSendMessage st sid now payload = _
  rw [handleSendMessage, heq]

/-- Witness for C6: socket 0's table is saturated at time 500. -/
theorem claim_C6_witness :
    step { initState with messageCounts := [(0, ⟨10, 1000⟩)] }
        (.send_message 0 500 payloadHi) =
      ({ initState with messageCounts := [(0, ⟨10, 1000⟩)] },
        [⟨[0],
          .rate_limit_exceeded "Sending messages too fast. Please slow down."⟩]) :=
  claim_C6 { initState with messageCounts := [(0, ⟨10, 1000⟩)] } 0 500 payloadHi
    (by decide)

/-- C10: a relayed `receive_message` carries the caller-supplied id only
when that id is truthy; a falsy id (`0`, the empty string, `undefined`…)
is replaced by the server clock value. -/
theorem claim_C10 (st : ServerState) (sid now : Nat) (payload : MsgPayload)
    (h : (checkMessageRateLimit st.messageCounts sid now).1 = true) :
    (step st (.send_message sid now payload)).2 =
      [⟨roomRecipients st.members payload.roomId sid,
        .receive_message payload.text "other"
          (if jsTruthy payload.id then payload.id else .num now)
          (if jsTruthy payload.ty then payload.ty else .str "text")
          payload.fileContent payload.fileType payload.replyTo payload.encrypted⟩] ∧
    (jsTruthy payload.id = false →
      (if jsTruthy payload.id then payload.id else JSVal.num now) = .num now) ∧
    (jsTruthy payload.id = true →
      (if jsTruthy payload.id then payload.id else JSVal.num now) = payload.id) := by
  refine ⟨?_, fun hf => by rw [if_neg (by simp [hf])], fun ht => by rw [if_pos ht]⟩
  have heq : checkMessageRateLimit st.messageCounts sid now =
      (true, (checkMessageRateLimit st.messageCounts sid now).2) := Prod.ext h rfl
  show (handleSendMessage st sid now payload).2 = _
  rw [handleSendMessage, heq]

/-- Witness for C10: caller supplies id `0` (falsy) at time 42; the relayed
message carries id 42. -/
theorem claim_C10_witness :
    (step stAB (.send_message 0 42 { payloadHi with id := .num 0 })).2 =
      [⟨roomRecipients stAB.members (1, 0) 0,
        .receive_message (.str "hi") "other" (.num 42) (.str "text")
          .undef .undef .undef .undef⟩] := by
  rw [(claim_C10 stAB 0 42 { payloadHi with id := .num 0 } (by decide)).1]
  rfl

/-- No escape replacement contains an angle bracket. -/
theorem escapeChar_no_angle (c : Char) :
    '<' ∉ escapeChar c ∧ '>' ∉ escapeChar c := by
  rw [escapeChar]
  by_cases h1 : c = '&'
  · rw [if_pos h1]; exact ⟨by decide, by decide⟩
  rw [if_neg h1]
  by_cases h2 : c = '<'
  · rw [if_pos h2]; exact ⟨by decide, by decide⟩
  rw [if_neg h2]
  by_cases h3 : c = '>'
  · rw [if_pos h3]; exact ⟨by decide, by decide⟩
  rw [if_neg h3]
  by_cases h4 : c = '"'
  · rw [if_pos h4]; exact ⟨by decide, by decide⟩
  rw [if_neg h4]
  by_cases h5 : c = Char.ofNat 39
  · rw [if_pos h5]; exact ⟨by decide, by decide⟩
  rw [if_neg h5]
  by_cases h6 : c = '/'
  · rw [if_pos h6]; exact ⟨by decide, by decide⟩
  rw [if_neg h6]
  by_cases h7 : c = Char.ofNat 92
  · rw [if_pos h7]; exact ⟨by decide, by decide⟩
  rw [if_neg h7]
  by_cases h8 : c = Char.ofNat 96
  · rw [if_pos h8]; exact ⟨by decide, by decide⟩
  rw [if_neg h8]
  constructor
  · intro hm
    exact h2 (List.mem_singleton.mp hm).symm
  · intro hm
    exact h3 (List.mem_singleton.mp hm).symm

/-- `validator.escape` output never contains an angle bracket. -/
theorem validatorEscape_no_angle (s : List Char) :
    '<' ∉ validatorEscape s ∧ '>' ∉ validatorEscape s := by
  constructor
  · intro hm
    rw [validatorEscape, List.mem_flatMap] at hm
    obtain ⟨c, -, hc⟩ := hm
    exact (escapeChar_no_angle c).1 hc
  · intro hm
    rw [validatorEscape, List.mem_flatMap] at hm
    obtain ⟨c, -, hc⟩ := hm
    exact (escapeChar_no_angle c).2 hc

/-- C9: a stored display name is at most 50 characters, carries no angle
bracket (so no executable markup); a missing, non-string, falsy or
empty-after-sanitization username becomes "Anonymous"; and the canonical
injection attempt is stored fully escaped. -/
theorem claim_C9 (u : JSVal) :
    (sanitizeUsername u).length ≤ 50 ∧
    '<' ∉ (sanitizeUsername u).data ∧
    '>' ∉ (sanitizeUsername u).data ∧
    ((∀ s, u ≠ JSVal.str s) → sanitizeUsername u = "Anonymous") ∧
    (u = JSVal.str "" → sanitizeUsername u = "Anonymous") ∧
    (∀ s, u = JSVal.str s → (validatorEscape (jsTrim s.data)).take 50 = [] →
      sanitizeUsername u = "Anonymous") ∧
    sanitizeUsername (JSVal.str "<script>x</script>") =
      "&lt;script&gt;x&lt;&#x2F;script&gt;" := by
  have hanon : ("Anonymous" : String).length ≤ 50 ∧
      '<' ∉ ("Anonymous" : String).data ∧ '>' ∉ ("Anonymous" : String).data := by
    decide
  cases u with
  | str s =>
    by_cases hs0 : s = ""
    · have hres : sanitizeUsername (JSVal.str s) = "Anonymous" := by
        rw [sanitizeUsername, if_pos hs0]
      rw [hres]
      exact ⟨hanon.1, hanon.2.1, hanon.2.2, fun _ => rfl, fun _ => rfl,
        fun _ _ _ => rfl, by decide⟩
    · by_cases htr : (validatorEscape (jsTrim s.data)).take 50 = []
      · have hres : sanitizeUsername (JSVal.str s) = "Anonymous" := by
          rw [sanitizeUsername, if_neg hs0]
          dsimp only
          rw [if_pos htr]
        rw [hres]
        exact ⟨hanon.1, hanon.2.1, hanon.2.2, fun _ => rfl, fun _ => rfl,
          fun _ _ _ => rfl, by decide⟩
      · have hres : sanitizeUsername (JSVal.str s) =
            String.mk ((validatorEscape (jsTrim s.data)).take 50) := by
          rw [sanitizeUsername, if_neg hs0]
          dsimp only
          rw [if_neg htr]
        rw [hres]
        refine ⟨?_, ?_, ?_, fun hns => absurd rfl (hns s),
          fun he => absurd (JSVal.str.inj he) hs0,
          fun s2 he htr2 => absurd ((JSVal.str.inj he) ▸ htr2) htr, by decide⟩
        · exact List.length_take_le 50 _
        · intro hm
          exact (validatorEscape_no_angle (jsTrim s.data)).1
            (List.take_subset 50 _ hm)
        · intro hm
          exact (validatorEscape_no_angle (jsTrim s.data)).2
            (List.take_subset 50 _ hm)
  | undef =>
    exact ⟨hanon.1, hanon.2.1, hanon.2.2, fun _ => rfl,
      fun h => JSVal.noConfusion h, fun s h => JSVal.noConfusion h, by decide⟩
  | jsnull =>
    exact ⟨hanon.1, hanon.2.1, hanon.2.2, fun _ => rfl,
      fun h => JSVal.noConfusion h, fun s h => JSVal.noConfusion h, by decide⟩
  | bool b =>
    exact ⟨hanon.1, hanon.2.1, hanon.2.2, fun _ => rfl,
      fun h => JSVal.noConfusion h, fun s h => JSVal.noConfusion h, by decide⟩
  | num n =>
    exact ⟨hanon.1, hanon.2.1, hanon.2.2, fun _ => rfl,
      fun h => JSVal.noConfusion h, fun s h => JSVal.noConfusion h, by decide⟩

/-- Witness for C9 at a non-string username. -/
theorem claim_C9_witness :
    sanitizeUsername (JSVal.num 3) = "Anonymous" :=
  (claim_C9 (JSVal.num 3)).2.2.2.1 (fun _ h => JSVal.noConfusion h)

/-- A `skip` with no active room only filters the waiting queue and emits
nothing. -/
theorem handleSkip_noroom {st : ServerState} {sid : Nat}
    (h : mget st.activeRooms sid = none) :
    handleSkip st sid =
      ({ st with waitingQueue := st.waitingQueue.filter (fun s => s ≠ sid) },
        []) := by
  rw [handleSkip, h]

/-- After any `skip`, the caller is unpaired and the queue is the old
queue with the caller filtered out. -/
theorem handleSkip_shape (st : ServerState) (sid : Nat) :
    mget (handleSkip st sid).1.activeRooms sid = none ∧
    (handleSkip st sid).1.waitingQueue =
      st.waitingQueue.filter (fun s => s ≠ sid) := by
  rw [handleSkip]
  split
  next r hr =>
    dsimp only
    split
    next p hp =>
      refine ⟨?_, rfl⟩
      dsimp only
      rw [mget_mdel]
      by_cases hsp : sid = p
      · rw [if_pos hsp]
      · rw [if_neg hsp, mget_mdel, if_pos rfl]
    next hp =>
      refine ⟨?_, rfl⟩
      dsimp only
      rw [mget_mdel, if_pos rfl]
  next hr =>
    exact ⟨hr, rfl⟩

/-- C7: `skip` is idempotent — a second `skip` right after a first one
changes nothing and emits nothing; and a `skip` from a connection with no
room leaves the registry and the socket.io membership untouched and emits
nothing to anyone. -/
theorem claim_C7 (st : ServerState) (sid : Nat) :
    (step (step st (.skip sid)).1 (.skip sid)).1 = (step st (.skip sid)).1 ∧
    (step (step st (.skip sid)).1 (.skip sid)).2 = [] ∧
    (mget st.activeRooms sid = none →
      (step st (.skip sid)).1.activeRooms = st.activeRooms ∧
      (step st (.skip sid)).1.members = st.members ∧
      (step st (.skip sid)).2 = []) := by
  obtain ⟨hnone, hqueue⟩ := handleSkip_shape st sid
  have hfix : List.filter (fun s => s ≠ sid)
        ((handleSkip st sid).1.waitingQueue) =
      (handleSkip st sid).1.waitingQueue := by
    rw [hqueue, List.filter_filter]
    exact List.filter_congr (fun a _ => Bool.and_self (decide (a ≠ sid)))
  refine ⟨?_, ?_, ?_⟩
  · show (handleSkip (handleSkip st sid).1 sid).1 = (handleSkip st sid).1
    rw [handleSkip_noroom hnone]
    dsimp only
    rw [hfix]
  · show (handleSkip (handleSkip st sid).1 sid).2 = []
    rw [handleSkip_noroom hnone]
  · intro h
    show (handleSkip st sid).1.activeRooms = st.activeRooms ∧
      (handleSkip st sid).1.members = st.members ∧ (handleSkip st sid).2 = []
    rw [handleSkip_noroom h]
    exact ⟨rfl, rfl, rfl⟩

/-- Witness for C7: double skip on the paired state, and the no-room case
on the empty server. -/
theorem claim_C7_witness :
    (step (step stAB (.skip 0)).1 (.skip 0)).1 = (step stAB (.skip 0)).1 ∧
    (step initState (.skip 5)).2 = [] :=
  ⟨(claim_C7 stAB 0).1, ((claim_C7 initState 5).2.2 rfl).2.2⟩

/-- The state after the unconditional `socket.data` assignment at the top
of the `join_queue` handler (App.tsx lines 1181–1182). -/
def withName (st : ServerState) (sid : Nat) (u pic : JSVal) : ServerState :=
  { st with sockData := mset st.sockData sid ⟨sanitizeUsername u, pic⟩ }

/-- Counterexample to C1 as stated: socket 0 is already queued, and its
repeat `join_queue` indeed changes no queue/registry state and emits
nothing — but it is NOT a no-op on the state: the stored display name is
overwritten (the handler assigns `socket.data` before its guards). -/
theorem claim_C1_counterexample :
    0 ∈ stA.waitingQueue ∧
    (step stA (.join_queue 0 (.str "zoe") .undef)).2 = [] ∧
    (step stA (.join_queue 0 (.str "zoe") .undef)).1 ≠ stA := by
  exact ⟨by decide, by decide, by decide⟩

/-- C1 (amended): a `join_queue` from an already-paired or already-queued
connection changes neither the queue nor the registry and emits nothing,
but still overwrites the stored display name and avatar; otherwise, with a
non-empty queue, the oldest waiting connection (the queue head) is paired
with the requester — both mapped to the room `(sid, partner)`, `chat_start`
sent to each side with the other's stored name and avatar; with an empty
queue the requester is appended at the end. -/
theorem claim_C1 (st : ServerState) (sid : Nat) (u pic : JSVal) :
    ((mhas st.activeRooms sid = true ∨ sid ∈ st.waitingQueue) →
      step st (.join_queue sid u pic) = (withName st sid u pic, [])) ∧
    (mhas st.activeRooms sid = false → sid ∉ st.waitingQueue →
      ∀ partner rest, st.waitingQueue = partner :: rest →
        (step st (.join_queue sid u pic)).1.waitingQueue = rest ∧
        mget (step st (.join_queue sid u pic)).1.activeRooms sid =
          some (sid, partner) ∧
        mget (step st (.join_queue sid u pic)).1.activeRooms partner =
          some (sid, partner) ∧
        (step st (.join_queue sid u pic)).2 =
          [⟨[sid], .chat_start (sid, partner) (getDataD st partner).username
              (getDataD st partner).profilePic⟩,
           ⟨[partner], .chat_start (sid, partner) (sanitizeUsername u) pic⟩]) ∧
    (mhas st.activeRooms sid = false → sid ∉ st.waitingQueue →
      st.waitingQueue = [] →
      step st (.join_queue sid u pic) =
        ({ withName st sid u pic with
            waitingQueue := st.waitingQueue ++ [sid] }, [])) := by
  refine ⟨?_, ?_, ?_⟩
  · intro h
    show handleJoinQueue st sid u pic = _
    rw [handleJoinQueue]
    dsimp only
    rcases h with h | h
    · rw [if_pos h]
      rfl
    · by_cases hp : mhas st.activeRooms sid = true
      · rw [if_pos hp]
        rfl
      · rw [if_neg hp, if_pos (List.elem_eq_true_of_mem h)]
        rfl
  · intro h1 h2 partner rest hq
    have hsp : sid ≠ partner := by
      intro he
      apply h2
      rw [hq, he]
      exact List.mem_cons_self partner rest
    have hred : handleJoinQueue st sid u pic =
        ({ withName st sid u pic with
            waitingQueue := rest,
            members := st.members ++
              [((sid, partner), sid), ((sid, partner), partner)],
            activeRooms := mset (mset st.activeRooms sid (sid, partner)) partner
              (sid, partner) },
          [⟨[sid], .chat_start (sid, partner)
              (getDataD (withName st sid u pic) partner).username
              (getDataD (withName st sid u pic) partner).profilePic⟩,
           ⟨[partner], .chat_start (sid, partner)
              (getDataD (withName st sid u pic) sid).username
              (getDataD (withName st sid u pic) sid).profilePic⟩]) := by
      rw [handleJoinQueue]
      dsimp only
      rw [if_neg (by simp [h1]),
        if_neg (fun hc => h2 (List.mem_of_elem_eq_true hc)), hq]
      rfl
    have hgd1 : getDataD (withName st sid u pic) partner = getDataD st partner := by
      rw [getDataD, getDataD, withName]
      dsimp only
      rw [mget_mset, if_neg (fun he => hsp he.symm)]
    have hgd2 : getDataD (withName st sid u pic) sid =
        ⟨sanitizeUsername u, pic⟩ := by
      rw [getDataD, withName]
      dsimp only
      rw [mget_mset, if_pos rfl]
      rfl
    show (handleJoinQueue st sid u pic).1.waitingQueue = rest ∧
      mget (handleJoinQueue st sid u pic).1.activeRooms sid = some (sid, partner) ∧
      mget (handleJoinQueue st sid u pic).1.activeRooms partner =
        some (sid, partner) ∧
      (handleJoinQueue st sid u pic).2 = _
    rw [hred]
    refine ⟨rfl, ?_, ?_, ?_⟩
    · show mget (mset (mset st.activeRooms sid (sid, partner)) partner
        (sid, partner)) sid = some (sid, partner)
      rw [mget_mset, if_neg hsp, mget_mset, if_pos rfl]
    · show mget (mset (mset st.activeRooms sid (sid, partner)) partner
        (sid, partner)) partner = some (sid, partner)
      rw [mget_mset, if_pos rfl]
    · dsimp only
      rw [hgd1, hgd2]
  · intro h1 h2 hq
    show handleJoinQueue st sid u pic = _
    rw [handleJoinQueue]
    dsimp only
    rw [if_neg (by simp [h1]),
      if_neg (fun hc => h2 (List.mem_of_elem_eq_true hc)), hq]
    rfl

/-- Witness for C1: socket 1 joins while socket 0 waits; the queue empties
and 0 is mapped to the new room. -/
theorem claim_C1_witness :
    (step stA (.join_queue 1 (.str "bob") .undef)).1.waitingQueue = [] ∧
    mget (step stA (.join_queue 1 (.str "bob") .undef)).1.activeRooms 0 =
      some (1, 0) :=
  ⟨((claim_C1 stA 1 (.str "bob") .undef).2.1 (by decide) (by decide) 0 [] rfl).1,
   ((claim_C1 stA 1 (.str "bob") .undef).2.1 (by decide) (by decide) 0 []
     rfl).2.2.1⟩

/-- Membership in a `socket.to(room)` recipient set. -/
theorem mem_roomRecipients {members : List (RoomId × Nat)} {r : RoomId}
    {sender c : Nat} :
    c ∈ roomRecipients members r sender ↔ (r, c) ∈ members ∧ c ≠ sender := by
  rw [roomRecipients]
  constructor
  · intro h
    obtain ⟨p, hp, hpc⟩ := List.mem_map.mp h
    obtain ⟨hpm, hcond⟩ := List.mem_filter.mp hp
    simp only [decide_eq_true_eq] at hcond
    refine ⟨?_, hpc ▸ hcond.2⟩
    have hpe : p = (r, c) := Prod.ext hcond.1 hpc
    exact hpe ▸ hpm
  · rintro ⟨hm, hc⟩
    exact List.mem_map.mpr ⟨(r, c), List.mem_filter.mpr ⟨hm, by simp [hc]⟩, rfl⟩

/-- Counterexample to C4 as stated: socket 2 never joined and is not
paired (`activeRooms` has no entry for it), yet its `send_message` naming
the room `(1, 0)` is relayed to both members of that room. -/
theorem claim_C4_counterexample :
    mget stAB.activeRooms 2 = none ∧
    (step stAB (.send_message 2 5 payloadHi)).2 =
      [⟨[1, 0], .receive_message (.str "hi") "other" (.num 7) (.str "text")
        .undef .undef .undef .undef⟩] := by
  exact ⟨by decide, by decide⟩

/-- C4 (amended): the `send_message` handler performs no pairing check at
all — once past the rate limiter, `receive_message` is broadcast to every
current member of the caller-supplied socket.io room other than the
sender, whether or not the sender is paired. -/
theorem claim_C4 (st : ServerState) (sid now : Nat) (payload : MsgPayload)
    (hallow : (checkMessageRateLimit st.messageCounts sid now).1 = true) :
    ∀ c, (payload.roomId, c) ∈ st.members → c ≠ sid →
      ∃ em ∈ (step st (.send_message sid now payload)).2,
        c ∈ em.recipients ∧
        em.msg = .receive_message payload.text "other"
          (if jsTruthy payload.id then payload.id else .num now)
          (if jsTruthy payload.ty then payload.ty else .str "text")
          payload.fileContent payload.fileType payload.replyTo payload.encrypted := by
  have heq : checkMessageRateLimit st.messageCounts sid now =
      (true, (checkMessageRateLimit st.messageCounts sid now).2) :=
    Prod.ext hallow rfl
  have hems : (step st (.send_message sid now payload)).2 =
      [⟨roomRecipients st.members payload.roomId sid,
        .receive_message payload.text "other"
          (if jsTruthy payload.id then payload.id else .num now)
          (if jsTruthy payload.ty then payload.ty else .str "text")
          payload.fileContent payload.fileType payload.replyTo
          payload.encrypted⟩] := by
    show (handleSendMessage st sid now payload).2 = _
    rw [handleSendMessage, heq]
  intro c hc hcs
  rw [hems]
  exact ⟨_, List.mem_singleton_self _, mem_roomRecipients.mpr ⟨hc, hcs⟩, rfl⟩

/-- Witness for C4: the unpaired socket 2 reaches socket 0 inside room
`(1, 0)`. -/
theorem claim_C4_witness :
    ∃ em ∈ (step stAB (.send_message 2 5 payloadHi)).2,
      0 ∈ em.recipients ∧
      em.msg = .receive_message (.str "hi") "other" (.num 7) (.str "text")
        .undef .undef .undef .undef :=
  claim_C4 stAB 2 5 payloadHi (by decide) 0 (by decide) (by decide)

/-- Counterexample to C5 as stated: socket 0 published key "K" while
paired with socket 1; after socket 1 (the partner) disconnects, socket 0's
stored key is gone — the partner's disconnect does affect the record. -/
theorem claim_C5_counterexample :
    mget stKey.publicKeys 0 = some "K" ∧
    mget stKey.activeRooms 0 = some (1, 0) ∧
    mget (step stKey (.disconnect 1)).1.publicKeys 0 = none := by
  exact ⟨by decide, by decide, by decide⟩

/-- After a paired socket disconnects, the key table lost both the
disconnecting socket's record and its partner's. -/
theorem handleDisconnect_pk_paired {st : ServerState} (inv : SrvInv st)
    {sid : Nat} {r : RoomId} (hr : mget st.activeRooms sid = some r) :
    (handleDisconnect st sid).1.publicKeys =
      mdel (mdel st.publicKeys sid) (otherMember r sid) := by
  rw [handleDisconnect]
  dsimp only
  rw [hr]
  dsimp only
  rw [findPartnerId_eq inv hr]

/-- After an unpaired socket disconnects, only its own key record is
removed. -/
theorem handleDisconnect_pk_unpaired {st : ServerState} {sid : Nat}
    (hr : mget st.activeRooms sid = none) :
    (handleDisconnect st sid).1.publicKeys = mdel st.publicKeys sid := by
  rw [handleDisconnect]
  dsimp only
  rw [hr]

/-- C5 (amended): a connection's stored public key is destroyed on its own
disconnect; when a paired connection disconnects, its partner's stored key
is destroyed as well (App.tsx line 1330); only for an unpaired
disconnecting socket are all other records untouched. -/
theorem claim_C5 (st : ServerState) (hreach : Reachable st) (sid : Nat) :
    mget (step st (.disconnect sid)).1.publicKeys sid = none ∧
    (∀ r, mget st.activeRooms sid = some r →
      mget (step st (.disconnect sid)).1.publicKeys (otherMember r sid) = none) ∧
    (mget st.activeRooms sid = none →
      ∀ q, q ≠ sid →
        mget (step st (.disconnect sid)).1.publicKeys q = mget st.publicKeys q) := by
  refine ⟨?_, ?_, ?_⟩
  · cases hx : mget st.activeRooms sid with
    | none =>
      show mget (handleDisconnect st sid).1.publicKeys sid = none
      rw [handleDisconnect_pk_unpaired hx, mget_mdel, if_pos rfl]
    | some r =>
      show mget (handleDisconnect st sid).1.publicKeys sid = none
      rw [handleDisconnect_pk_paired (reachable_inv hreach) hx, mget_mdel]
      by_cases h : sid = otherMember r sid
      · rw [if_pos h]
      · rw [if_neg h, mget_mdel, if_pos rfl]
  · intro r hr
    show mget (handleDisconnect st sid).1.publicKeys (otherMember r sid) = none
    rw [handleDisconnect_pk_paired (reachable_inv hreach) hr, mget_mdel,
      if_pos rfl]
  · intro hr q hq
    show mget (handleDisconnect st sid).1.publicKeys q = mget st.publicKeys q
    rw [handleDisconnect_pk_unpaired hr, mget_mdel, if_neg hq]

/-- Witness for C5: the partner's key vanishes in the concrete scenario. -/
theorem claim_C5_witness :
    mget (step stKey (.disconnect 1)).1.publicKeys 0 = none :=
  (claim_C5 stKey reachable_stKey 1).2.1 (1, 0) rfl

/-- `exchange_keys` with a truthy string key always stores via `Map.set`,
whether or not the socket is paired. -/
theorem handleExchangeKeys_pk {st : ServerState} {sid : Nat} {k : String}
    (hk : k ≠ "") :
    (handleExchangeKeys st sid (.str k)).1.publicKeys =
      mset st.publicKeys sid k := by
  rw [handleExchangeKeys]
  dsimp only
  rw [if_pos hk]
  split <;> rfl

/-- `exchange_keys` from a paired socket: store and forward into the
room. -/
theorem handleExchangeKeys_paired {st : ServerState} {sid : Nat} {k : String}
    (hk : k ≠ "") {r : RoomId} (hr : mget st.activeRooms sid = some r) :
    handleExchangeKeys st sid (.str k) =
      ({ st with publicKeys := mset st.publicKeys sid k },
        [⟨roomRecipients st.members r sid, .partner_public_key k⟩]) := by
  rw [handleExchangeKeys]
  dsimp only
  rw [if_pos hk, hr]

/-- `exchange_keys` from an unpaired socket: store, emit nothing. -/
theorem handleExchangeKeys_unpaired {st : ServerState} {sid : Nat} {k : String}
    (hk : k ≠ "") (hr : mget st.activeRooms sid = none) :
    handleExchangeKeys st sid (.str k) =
      ({ st with publicKeys := mset st.publicKeys sid k }, []) := by
  rw [handleExchangeKeys]
  dsimp only
  rw [if_pos hk, hr]

/-- Every emission of the `join_queue` handler is a `chat_start`. -/
theorem handleJoinQueue_msgs (st : ServerState) (sid : Nat) (u pic : JSVal) :
    ∀ em ∈ (handleJoinQueue st sid u pic).2,
      ∃ r n p2, em.msg = OutMsg.chat_start r n p2 := by
  rw [handleJoinQueue]
  dsimp only
  split
  · intro em hem
    exact absurd hem (List.not_mem_nil em)
  split
  · intro em hem
    exact absurd hem (List.not_mem_nil em)
  split
  next partner rest heq =>
    intro em hem
    rcases List.mem_cons.mp hem with h | h
    · subst h
      exact ⟨_, _, _, rfl⟩
    · rw [List.mem_singleton] at h
      subst h
      exact ⟨_, _, _, rfl⟩
  next heq =>
    intro em hem
    exact absurd hem (List.not_mem_nil em)

/-- C8: `exchange_keys` with a truthy string key stores it, overwriting
the single record for that socket (others untouched, one record per
socket); a paired sender's key is forwarded at once as
`partner_public_key` and reaches the partner; an unpaired sender's key is
stored silently; and pairing itself never delivers a stored key — a
`join_queue` only ever emits `chat_start`. -/
theorem claim_C8 (st : ServerState) (hreach : Reachable st) (sid : Nat)
    (k : String) (hk : k ≠ "") :
    mget (step st (.exchange_keys sid (.str k))).1.publicKeys sid = some k ∧
    (∀ q, q ≠ sid →
      mget (step st (.exchange_keys sid (.str k))).1.publicKeys q =
        mget st.publicKeys q) ∧
    ((step st (.exchange_keys sid (.str k))).1.publicKeys.map Prod.fst).Nodup ∧
    (∀ r, mget st.activeRooms sid = some r →
      (step st (.exchange_keys sid (.str k))).2 =
        [⟨roomRecipients st.members r sid, .partner_public_key k⟩] ∧
      otherMember r sid ∈ roomRecipients st.members r sid) ∧
    (mget st.activeRooms sid = none →
      (step st (.exchange_keys sid (.str k))).2 = []) ∧
    (∀ sid2 u pic, ∀ em ∈ (step st (.join_queue sid2 u pic)).2,
      ∀ key, em.msg ≠ .partner_public_key key) := by
  have inv := reachable_inv hreach
  refine ⟨?_, ?_, ?_, ?_, ?_, ?_⟩
  · show mget (handleExchangeKeys st sid (.str k)).1.publicKeys sid = some k
    rw [handleExchangeKeys_pk hk, mget_mset, if_pos rfl]
  · intro q hq
    show mget (handleExchangeKeys st sid (.str k)).1.publicKeys q =
      mget st.publicKeys q
    rw [handleExchangeKeys_pk hk, mget_mset, if_neg hq]
  · show ((handleExchangeKeys st sid (.str k)).1.publicKeys.map Prod.fst).Nodup
    rw [handleExchangeKeys_pk hk]
    exact keys_mset_nodup inv.pkNodup
  · intro r hr
    constructor
    · show (handleExchangeKeys st sid (.str k)).2 = _
      rw [handleExchangeKeys_paired hk hr]
    · have hmem := mem_of_mget_eq_some hr
      obtain ⟨hne, hor, -, -⟩ := inv.rooms (sid, r) hmem
      obtain ⟨hm1, hm2⟩ := inv.memb (sid, r) hmem
      simp only at hne hor hm1 hm2
      apply mem_roomRecipients.mpr
      rcases hor with h1 | h2
      · rw [otherMember, if_pos h1]
        exact ⟨hm2, fun he => hne (he.trans h1).symm⟩
      · by_cases h1 : sid = r.1
        · rw [otherMember, if_pos h1]
          exact ⟨hm2, fun he => hne (he.trans h1).symm⟩
        · rw [otherMember, if_neg h1]
          exact ⟨hm1, fun he => h1 he.symm⟩
  · intro hr
    show (handleExchangeKeys st sid (.str k)).2 = []
    rw [handleExchangeKeys_unpaired hk hr]
  · intro sid2 u pic em hem key hkey
    obtain ⟨r2, n2, p2, hmsg⟩ := handleJoinQueue_msgs st sid2 u pic em hem
    rw [hmsg] at hkey
    exact OutMsg.noConfusion hkey

/-- Witness for C8: socket 0, paired in room `(1, 0)`, publishes "K"; the
key is stored and forwarded into the room. -/
theorem claim_C8_witness :
    mget (step stAB (.exchange_keys 0 (.str "K"))).1.publicKeys 0 = some "K" ∧
    (step stAB (.exchange_keys 0 (.str "K"))).2 =
      [⟨roomRecipients stAB.members (1, 0) 0, .partner_public_key "K"⟩] :=
  ⟨(claim_C8 stAB reachable_stAB 0 "K" (by decide)).1,
   ((claim_C8 stAB reachable_stAB 0 "K" (by decide)).2.2.2.1 (1, 0) rfl).1⟩

/-- An unpaired socket has no partner. -/
theorem partnerOf_eq_none {st : ServerState} {s : Nat}
    (h : mget st.activeRooms s = none) : partnerOf st s = none := by
  rw [partnerOf, h]

/-- `skip` from a paired socket deletes both room mappings in its one
step. -/
theorem handleSkip_ar_paired {st : ServerState} (inv : SrvInv st) {sid : Nat}
    {r : RoomId} (hr : mget st.activeRooms sid = some r) :
    (handleSkip st sid).1.activeRooms =
      mdel (mdel st.activeRooms sid) (otherMember r sid) := by
  rw [handleSkip, hr]
  dsimp only
  rw [findPartnerId_eq inv hr]

/-- `disconnect` from a paired socket deletes both room mappings in its
one step. -/
theorem handleDisconnect_ar_paired {st : ServerState} (inv : SrvInv st)
    {sid : Nat} {r : RoomId} (hr : mget st.activeRooms sid = some r) :
    (handleDisconnect st sid).1.activeRooms =
      mdel (mdel st.activeRooms sid) (otherMember r sid) := by
  rw [handleDisconnect]
  dsimp only
  rw [hr]
  dsimp only
  rw [findPartnerId_eq inv hr]

/-- C3: in every reachable state the registry has at most one room per
connection; a connection maps to a room exactly when both of that room's
two distinct members map to it; and dissolving a room — by either
member's `skip` or `disconnect` — clears both mappings in that single
step, after which both former members resolve to no partner. -/
theorem claim_C3 (st : ServerState) (hreach : Reachable st) :
    (st.activeRooms.map Prod.fst).Nodup ∧
    (∀ s r, mget st.activeRooms s = some r →
      mget st.activeRooms r.1 = some r ∧ mget st.activeRooms r.2 = some r ∧
      (s = r.1 ∨ s = r.2) ∧ r.1 ≠ r.2) ∧
    (∀ s r, mget st.activeRooms s = some r →
      ∀ e, e = InEvent.skip s ∨ e = InEvent.disconnect s →
        mget (step st e).1.activeRooms s = none ∧
        mget (step st e).1.activeRooms (otherMember r s) = none ∧
        partnerOf (step st e).1 s = none ∧
        partnerOf (step st e).1 (otherMember r s) = none) := by
  have inv := reachable_inv hreach
  refine ⟨inv.arNodup, ?_, ?_⟩
  · intro s r hr
    have hmem := mem_of_mget_eq_some hr
    obtain ⟨hne, hor, h1, h2⟩ := inv.rooms (s, r) hmem
    simp only at hne hor h1 h2
    exact ⟨mget_eq_some_of_mem inv.arNodup h1,
      mget_eq_some_of_mem inv.arNodup h2, hor, hne⟩
  · intro s r hr e he
    have har : (step st e).1.activeRooms =
        mdel (mdel st.activeRooms s) (otherMember r s) := by
      rcases he with rfl | rfl
      · exact handleSkip_ar_paired inv hr
      · exact handleDisconnect_ar_paired inv hr
    have hs : mget (step st e).1.activeRooms s = none := by
      rw [har, mget_mdel]
      by_cases h : s = otherMember r s
      · rw [if_pos h]
      · rw [if_neg h, mget_mdel, if_pos rfl]
    have ho : mget (step st e).1.activeRooms (otherMember r s) = none := by
      rw [har, mget_mdel, if_pos rfl]
    exact ⟨hs, ho, partnerOf_eq_none hs, partnerOf_eq_none ho⟩

/-- Witness for C3: socket 0 skips out of room `(1, 0)`; its former
partner 1 is unmapped and partnerless at once. -/
theorem claim_C3_witness :
    mget stAB.activeRooms 0 = some (1, 0) ∧
    mget (step stAB (.skip 0)).1.activeRooms 1 = none ∧
    partnerOf (step stAB (.skip 0)).1 1 = none := by
  have h := (claim_C3 stAB reachable_stAB).2.2 0 (1, 0) rfl (.skip 0) (Or.inl rfl)
  exact ⟨rfl, h.2.1, h.2.2.2⟩
